import Mathlib

/-!
Verification development for the riven media-acquisition pipeline.

Shallow embedding of the parts of the source that the claims touch:
* `src/program/services/scrapers/watchlist2plex.py` (Watchlist2PlexScraper)
* `src/program/services/downloaders/__init__.py` (Downloader)
* `src/program/services/post_processing/episode_validation.py`
* `src/program/services/scrapers/shared.py` (country context filter)
* `src/program/services/content/watchlist2plex.py` (Watchlist2PlexContent)

Python strings are modelled as Lean `String` / `List Char`; Python `None`
as `Option.none`; Python truthiness of strings/lists is modelled explicitly.
-/

/-! ## Watchlist2PlexScraper (src/program/services/scrapers/watchlist2plex.py) -/

/-- Matches Python regex class `[^\x00-\x7F]` (a non-ASCII character). -/
def isNonAscii (c : Char) : Bool := 0x7F < c.toNat

/-- Matches Python regex class `\s` restricted to ASCII
(space, tab, newline, carriage return, vertical tab, form feed).
`Watchlist2PlexScraper.run` applies `\s+` collapsing only after all
non-ASCII characters have been replaced, so the ASCII set is exact there. -/
def isPyWs (c : Char) : Bool :=
  c = ' ' || c = '\t' || c = '\n' || c = '\r' || c = '\x0b' || c = '\x0c'

/-- `re.sub(p+, ' ', s)`: replace every maximal run of characters satisfying
`p` by a single space.  `inRun` records whether the previous character was
part of a run (so the run's replacement space was already emitted). -/
def collapseRunsAux (p : Char → Bool) (inRun : Bool) : List Char → List Char
  | [] => []
  | c :: rest =>
    if p c then
      if inRun then collapseRunsAux p true rest
      else ' ' :: collapseRunsAux p true rest
    else c :: collapseRunsAux p false rest

/-- Python `str.strip()` over the ASCII whitespace class. -/
def pyStrip (l : List Char) : List Char :=
  ((l.dropWhile isPyWs).reverse.dropWhile isPyWs).reverse

/-- Python `str.lower()` restricted to ASCII case mapping (exact for the
hex infohashes and country codes it is applied to). -/
def pyLower (s : String) : String := String.mk (s.data.map Char.toLower)

/-- Python `str.upper()` restricted to ASCII case mapping. -/
def pyUpper (s : String) : String := String.mk (s.data.map Char.toUpper)

/-- Python `s.split(c)[0]`: the prefix of `l` before the first occurrence
of `c` (the whole list when `c` does not occur). -/
def takeBeforeChar (c : Char) (l : List Char) : List Char :=
  l.takeWhile (fun d => d ≠ c)

/-- Title normalization of `Watchlist2PlexScraper.run`
(watchlist2plex.py lines 58-64):
`re.sub(r'[^\x00-\x7F]+', ' ', raw)`, then `re.sub(r'\s+', ' ', .).strip()`,
then `.split('\n')[0].strip()`. -/
def w2pCleanTitle (raw : String) : String :=
  let s1 := collapseRunsAux isNonAscii false raw.data
  let s2 := pyStrip (collapseRunsAux isPyWs false s1)
  let s3 := pyStrip (takeBeforeChar '\n' s2)
  String.mk s3

/-- A hexadecimal-digit character, the regex class `[a-fA-F0-9]`. -/
def isHexChar (c : Char) : Bool :=
  let n := c.toNat
  (48 ≤ n && n ≤ 57) || (97 ≤ n && n ≤ 102) || (65 ≤ n && n ≤ 70)

/-- `re.search(r"btih:([a-fA-F0-9]{32,40})", magnet)` from
`Watchlist2PlexScraper._extract_infohash` (watchlist2plex.py lines 80-89):
find the leftmost position where the literal `btih:` is followed by at
least 32 hex digits; the greedy group takes up to 40 of them. -/
def searchBtih : List Char → Option (List Char)
  | [] => none
  | c :: rest =>
    if ['b', 't', 'i', 'h', ':'].isPrefixOf (c :: rest) then
      let hx := ((c :: rest).drop 5).takeWhile isHexChar
      if 32 ≤ hx.length then some (hx.take 40) else searchBtih rest
    else searchBtih rest

/-- `Watchlist2PlexScraper._extract_infohash` (lines 80-89): `None` or an
empty magnet yields `None`; otherwise the regex search result. -/
def extractInfohash (magnet : Option String) : Option String :=
  match magnet with
  | none => none
  | some m => if m.isEmpty then none else (searchBtih m.data).map String.mk

/-- A W2P release record as read by `Watchlist2PlexScraper.run`.
Each field models `rel.get(...)`; `none` stands for an absent key.
The source also has a fallback branch for a `dict`-typed title
(lines 66-69, unreachable for string titles), not modelled here:
the claims only concern string titles. -/
structure W2PRelease where
  infohash : Option String
  magnet : Option String
  title : Option String
  raw_title : Option String
deriving DecidableEq, Repr

/-- Python truthiness of an optional string (`None` and `""` are falsy). -/
def pyTruthy : Option String → Bool
  | none => false
  | some s => !s.isEmpty

/-- Lines 47-52 of watchlist2plex.py: the infohash used for a release:
the `infohash` field when truthy, else the magnet extraction when a magnet
is present; `none` when the final value is falsy (the release is dropped). -/
def relEffectiveInfohash (rel : W2PRelease) : Option String :=
  let ih := if !pyTruthy rel.infohash && pyTruthy rel.magnet then
      extractInfohash rel.magnet
    else rel.infohash
  if pyTruthy ih then ih else none

/-- Line 55: `raw_title = rel.get("title") or rel.get("raw_title") or ""`. -/
def relRawTitle (rel : W2PRelease) : String :=
  if pyTruthy rel.title then rel.title.getD ""
  else if pyTruthy rel.raw_title then rel.raw_title.getD ""
  else ""

/-- Python dict assignment `d[k] = v` on a dict modelled as an ordered
association list: overwrite in place when the key exists, else append. -/
def dictInsert (k v : String) (d : List (String × String)) :
    List (String × String) :=
  if d.any (fun q => q.1 == k) then
    d.map (fun q => if q.1 == k then (k, v) else q)
  else d ++ [(k, v)]

/-- `Watchlist2PlexScraper.run` (lines 34-78): fold over the releases,
building the `infohash.lower() -> cleaned title` dict; releases whose
effective infohash is falsy are skipped. -/
def w2pScraperRun (rels : List W2PRelease) : List (String × String) :=
  rels.foldl
    (fun acc rel =>
      match relEffectiveInfohash rel with
      | none => acc
      | some ih => dictInsert (pyLower ih) (w2pCleanTitle (relRawTitle rel)) acc)
    []

/-! ## Downloader: MediaEntry, dedup and retention
(src/program/services/downloaders/__init__.py) -/

/-- A filesystem `MediaEntry` as used by `Downloader._update_attributes`
and `Downloader._enforce_version_retention`.  `profile_name` models
`media_metadata["profile_name"]` (`none` when the metadata is missing or
has no such key).  `entryId` models database identity: an in-place update
keeps it, an append creates a fresh one. -/
structure MediaEntry where
  entryId : Nat
  infohash : String
  profile_name : Option String
  original_filename : String
  download_url : String
  provider : String
  provider_download_id : String
  file_size : Nat
deriving DecidableEq, Repr

/-- The dedup key of `_update_attributes` lines 925-940: lowered infohash
together with the profile name (`None` and absent treated alike). -/
def entryKey (e : MediaEntry) : String × Option String :=
  (pyLower e.infohash, e.profile_name)

/-- The per-item uniqueness invariant: no two `filesystem_entries` share
the same `(infohash, profile_name)` key. -/
def KeysNodup (l : List MediaEntry) : Prop := (l.map entryKey).Nodup

/-- `_update_attributes` lines 925-961: scan `item.filesystem_entries` for
the first entry whose lowered infohash equals the new entry's (already
lowered, line 921) infohash and whose profile matches `target_profile`;
update it in place (all payload fields overwritten, database identity
kept) or, when no entry matches, append the new entry. -/
def upsertEntry (newE : MediaEntry) : List MediaEntry → List MediaEntry
  | [] => [newE]
  | e :: rest =>
    if pyLower e.infohash = newE.infohash ∧ e.profile_name = newE.profile_name then
      { newE with entryId := e.entryId } :: rest
    else e :: upsertEntry newE rest

/-- Keys of a Python dict built by repeated insertion, in order: the first
occurrence of each element.  `seen` holds the keys already emitted. -/
def firstOccurAux {α : Type} [DecidableEq α] (seen : List α) :
    List α → List α
  | [] => []
  | a :: rest =>
    if a ∈ seen then firstOccurAux seen rest
    else a :: firstOccurAux (seen ++ [a]) rest

/-- `_enforce_version_retention` lines 461-468: the hash preference order.
`desired` models the `desired_hashes` argument (`None` or a list, Python
truthiness: an empty list also falls through to the stream order).
`sortedStreamHashes` stands for
`[s.infohash for s in _sort_streams_by_quality(item.streams)]`; the
function `_sort_streams_by_quality` lives in
`program/services/downloaders/shared.py`, which is not part of the
sources here, so its output is taken as an input. -/
def computeOrderedHashes (desired : Option (List String))
    (sortedStreamHashes : List String) : List String :=
  match desired with
  | some ds =>
    if ds.isEmpty then firstOccurAux [] (sortedStreamHashes.map pyLower)
    else ds.map pyLower
  | none => firstOccurAux [] (sortedStreamHashes.map pyLower)

/-- Inner loop of lines 479-483 / 491-495: walk a bucket's entries,
appending each entry not already kept; stop as soon as the keep list
reaches `kv` entries (the length check runs after the conditional
append). -/
def keepFromBucket (kv : Nat) (keep : List MediaEntry) :
    List MediaEntry → List MediaEntry
  | [] => keep
  | e :: rest =>
    let keep' := if e ∈ keep then keep else keep ++ [e]
    if kv ≤ keep'.length then keep' else keepFromBucket kv keep' rest

/-- `entries_by_profile[p][ih]`: the sub-sequence of a profile group with
the given lowered infohash (entries without an infohash land under `""`,
exactly like lines 454-459). -/
def bucketOf (g : List MediaEntry) (ih : String) : List MediaEntry :=
  g.filter (fun e => pyLower e.infohash == ih)

/-- The keys of `entries_by_profile[p]` in insertion order. -/
def hashKeysFor (g : List MediaEntry) : List String :=
  firstOccurAux [] (g.map (fun e => pyLower e.infohash))

/-- Lines 477-485: first phase of a profile group's keep list, walking
`ordered_hashes`. -/
def retentionPhase1 (kv : Nat) (g : List MediaEntry) (keep : List MediaEntry) :
    List String → List MediaEntry
  | [] => keep
  | ih :: rest =>
    let keep' := if ih ∈ hashKeysFor g then keepFromBucket kv keep (bucketOf g ih)
      else keep
    if kv ≤ keep'.length then keep' else retentionPhase1 kv g keep' rest

/-- Lines 488-497: second phase, filling remaining slots from the group's
buckets that are not in `ordered_hashes`, in dict insertion order. -/
def retentionPhase2 (kv : Nat) (g : List MediaEntry) (ordered : List String)
    (keep : List MediaEntry) : List String → List MediaEntry
  | [] => keep
  | ih :: rest =>
    let keep' := if ih ∈ ordered then keep
      else keepFromBucket kv keep (bucketOf g ih)
    if kv ≤ keep'.length then keep' else retentionPhase2 kv g ordered keep' rest

/-- Lines 473-500: the keep list of one profile group `g`. -/
def profileKeep (kv : Nat) (ordered : List String) (g : List MediaEntry) :
    List MediaEntry :=
  let k1 := retentionPhase1 kv g [] ordered
  if k1.length < kv then retentionPhase2 kv g ordered k1 (hashKeysFor g) else k1

/-- Lines 473-500 outer loop: concatenate the per-profile keep lists in
profile insertion order, giving the final `keep_list`. -/
def groupsKeep (kv : Nat) (ordered : List String) (entries : List MediaEntry) :
    List (Option String) → List MediaEntry
  | [] => []
  | p :: rest =>
    profileKeep kv ordered (entries.filter (fun e => e.profile_name == p))
      ++ groupsKeep kv ordered entries rest

/-- `Downloader._enforce_version_retention` (lines 424-504), as a function
on the entry list.  `keepVersions` is normalized to at least 1 (line 436,
with `Nat` standing for the non-negative ints reaching it); an empty entry
list is returned unchanged (line 438); the remaining lines group by
profile and keep at most `kv` entries per group.  The trailing
`active_stream` re-pointing (lines 507-513) does not touch the entry list
and is not modelled. -/
def enforceVersionRetention (entries : List MediaEntry) (keepVersions : Nat)
    (desired : Option (List String)) (sortedStreamHashes : List String) :
    List MediaEntry :=
  let kv := if keepVersions = 0 then 1 else keepVersions
  if entries.isEmpty then entries
  else
    let ordered := computeOrderedHashes desired sortedStreamHashes
    groupsKeep kv ordered entries
      (firstOccurAux [] (entries.map (fun e => e.profile_name)))

/-- `Downloader.run` line 99:
`keep_versions = max(keep_versions or 1, len(item.streams) or 1)`,
with `configured` the value `get_keep_versions_for_profile` returned for
the default profile (`or 1` maps a falsy 0/None to 1). -/
def runKeepVersions (configured : Nat) (numStreams : Nat) : Nat :=
  max (if configured = 0 then 1 else configured)
    (if numStreams = 0 then 1 else numStreams)

/-- `Downloader.run` lines 106-115: walk the streams in scrape order and
collect up to `kv` distinct lowered infohashes (`desired_hashes`).
A stream is the pair (infohash, profile_name). -/
def collectDesired (kv : Nat) (acc : List String) :
    List (String × Option String) → List String
  | [] => acc
  | (ih, _) :: rest =>
    let l := pyLower ih
    if l ∈ acc then collectDesired kv acc rest
    else
      let acc' := acc ++ [l]
      if kv ≤ acc'.length then acc' else collectDesired kv acc' rest

/-- The retention effect of one `Downloader.run` pass in which no new
download occurs: when every desired infohash already has a filesystem
entry, `streams_to_process` (lines 131-135) is empty, the per-stream loop
body never runs, and the pass reduces to the retention call at line 124
followed by the final retention call at line 396, both with
`keep_versions` from line 99 and `desired_hashes` from lines 106-115. -/
def downloaderRunNoDownloadPass (configured : Nat)
    (streams : List (String × Option String)) (entries : List MediaEntry)
    (sortedStreamHashes : List String) : List MediaEntry :=
  let kv := runKeepVersions configured streams.length
  let desired := collectDesired kv [] streams
  let e1 := enforceVersionRetention entries kv (some desired) sortedStreamHashes
  enforceVersionRetention e1 kv (some desired) sortedStreamHashes

/-! ## Downloader: per-stream attempt loop (`Downloader.run` lines 232-382) -/

/-- The observable outcome of trying one stream on one available service
(one iteration of the `for service in available_services` loop):
* `success`: validation, download and `update_item_attributes` all
  succeeded (lines 246-324);
* `notAvailable`: `validate_stream_on_service` returned no container
  (lines 266-270), the loop continues;
* `circuitBreaker`: the service raised `CircuitBreakerOpen`
  (lines 330-346);
* `otherError`: any other exception (lines 348-362), the loop continues.
The hq pre-validation path (lines 149-230) is not active here: this
models the loop with `validated_containers` empty (a non-hq first
profile). -/
inductive AttemptOutcome
  | success
  | notAvailable
  | circuitBreaker
  | otherError
deriving DecidableEq, Repr

/-- Mutable state of the per-stream loop in `Downloader.run`. -/
structure DLState where
  existing : List String
  tried : Nat
  yieldsAt : List Nat
  blacklisted : List String
  downloadSuccess : Bool
  hitCB : Bool
deriving DecidableEq, Repr

/-- The loop state on entry to the per-stream loop: `tried_streams = 0`
(line 103), no yields yet, `download_success = False` (line 137),
`hit_circuit_breaker = False` (line 102), with the given
`existing_infohashes` and previously blacklisted hashes. -/
def mkDLState (existing blacklisted : List String) : DLState :=
  { existing := existing, tried := 0, yieldsAt := [], blacklisted := blacklisted,
    downloadSuccess := false, hitCB := false }

/-- Lines 241-362: walk the available services for one stream,
threading `stream_failed_on_all_services` (`failed`, starts `True`) and
`stream_hit_circuit_breaker` (`cb`, starts `False`); returns
`(failed, cb, succeeded)`.  On success the provider loop breaks with
`stream_failed_on_all_services = False`; on `CircuitBreakerOpen`,
`stream_failed_on_all_services` is cleared only when
`len(self.initialized_services) == 1` (lines 342-346). -/
def svcAttemptsGo (numInit : Nat) (failed cb : Bool) :
    List AttemptOutcome → Bool × Bool × Bool
  | [] => (failed, cb, false)
  | o :: rest =>
    match o with
    | .success => (false, cb, true)
    | .notAvailable => svcAttemptsGo numInit failed cb rest
    | .otherError => svcAttemptsGo numInit failed cb rest
    | .circuitBreaker =>
      svcAttemptsGo numInit (if numInit = 1 then false else failed) true rest

/-- One iteration of the `for stream in streams_to_process` loop body
(lines 237-382) for a stream with lowered infohash `ih` whose service
attempts produce `outs`: run the service loop, record a success
(line 311-314), update `hit_circuit_breaker` (line 340), apply the
blacklist decision (lines 364-378), bump `tried_streams` and yield the
item when `tried_streams >= 3` (lines 380-382, recorded as the value of
`tried_streams` at the yield). -/
def streamStep (numInit : Nat) (st : DLState) (ih : String)
    (outs : List AttemptOutcome) : DLState :=
  let r := svcAttemptsGo numInit true false outs
  let failed := r.1
  let cb := r.2.1
  let succ := r.2.2
  let tried' := st.tried + 1
  { existing := if succ then
      (if ih ∈ st.existing then st.existing else st.existing ++ [ih])
    else st.existing
    tried := tried'
    yieldsAt := if 3 ≤ tried' then st.yieldsAt ++ [tried'] else st.yieldsAt
    blacklisted := if failed ∧ ¬(cb ∧ numInit = 1) then st.blacklisted ++ [ih]
      else st.blacklisted
    downloadSuccess := st.downloadSuccess || succ
    hitCB := st.hitCB || cb }

/-- The `for stream in streams_to_process` loop (lines 232-382): each
stream is the pair of its lowered infohash and the outcomes its service
attempts would produce; the loop breaks once `existing_infohashes` holds
`keep_versions` hashes (lines 233-235). -/
def streamLoop (numInit kv : Nat) (st : DLState) :
    List (String × List AttemptOutcome) → DLState
  | [] => st
  | (ih, outs) :: rest =>
    if kv ≤ st.existing.length then st
    else streamLoop numInit kv (streamStep numInit st ih outs) rest

/-- The counts `3, 4, ..., t`: the attempted-stream counts at which the
loop has yielded after `t` attempts. -/
def yieldsUpTo (t : Nat) : List Nat :=
  ((List.range t).map (fun k => k + 1)).filter (fun c => decide (3 ≤ c))

/-! ## Downloader: generator control flow of `Downloader.run`
(lines 64-422) -/

/-- A value yielded by the `Downloader.run` generator: the bare item, or
an `(item, datetime)` cooldown pair. -/
inductive DownloaderYield
  | yItem
  | yItemCooldown
deriving DecidableEq, Repr

/-- Where an exception is raised inside the `try` block of
`Downloader.run` (lines 85-396), relative to the initialization of the
local `download_success` at line 137:
* `atSettings`: in lines 86-99 (settings lookups, `keep_versions`),
  before `hit_circuit_breaker` (line 102) is bound;
* `atPrep`: in lines 105-135 (desired hashes, the first
  `_enforce_version_retention` call), after `hit_circuit_breaker` is
  bound but before `download_success` is;
* `atBody k ds cb`: in lines 140-396, after the loop yielded `k` times
  and left `download_success = ds`, `hit_circuit_breaker = cb`. -/
inductive RunFailPoint
  | atSettings
  | atPrep
  | atBody (yieldsBefore : Nat) (ds : Bool) (cb : Bool)
deriving DecidableEq, Repr

/-- What consuming the `Downloader.run` generator produces: the yielded
values in order, and whether an `UnboundLocalError` escaped to the
caller (reading a local that was never assigned). -/
structure RunOutcome where
  yields : List DownloaderYield
  unboundLocalRaised : Bool
deriving DecidableEq, Repr

/-- Generator control flow of `Downloader.run` (lines 64-422).
`allCooldown` is the guard of lines 76-83 (every initialized service in
cooldown: yield the cooldown pair and return).  Otherwise the `try` body
runs; `fail` says where (if anywhere) it raises — the `except` at line
398 catches and logs.  `bodyYields`, `bodyDS`, `bodyCB` describe a
non-raising body: the in-loop yields of line 382 and the final values of
`download_success` / `hit_circuit_breaker`.  After the `try`, line 403
reads `download_success`: if it was never bound the generator raises
`UnboundLocalError`; lines 405-412 yield the cooldown pair when a single
initialized provider hit the circuit breaker; line 422 yields the item. -/
def downloaderRunModel (allCooldown : Bool) (fail : Option RunFailPoint)
    (bodyYields : Nat) (bodyDS bodyCB : Bool) (numInit : Nat) : RunOutcome :=
  if allCooldown then { yields := [.yItemCooldown], unboundLocalRaised := false }
  else
    let bodyResult : Option Bool × Option Bool × List DownloaderYield :=
      match fail with
      | some .atSettings => (none, none, [])
      | some .atPrep => (none, some false, [])
      | some (.atBody k ds cb) => (some ds, some cb, List.replicate k .yItem)
      | none => (some bodyDS, some bodyCB, List.replicate bodyYields .yItem)
    let ds := bodyResult.1
    let cb := bodyResult.2.1
    let ys := bodyResult.2.2
    match ds with
    | none => { yields := ys, unboundLocalRaised := true }
    | some d =>
      if d then { yields := ys ++ [.yItem], unboundLocalRaised := false }
      else
        match cb with
        | none => { yields := ys, unboundLocalRaised := true }
        | some c =>
          if c ∧ numInit = 1 then
            { yields := ys ++ [.yItemCooldown], unboundLocalRaised := false }
          else { yields := ys ++ [.yItem], unboundLocalRaised := false }

/-! ## EpisodeValidationService
(src/program/services/post_processing/episode_validation.py) -/

/-- The episode numbers of `season.episodes` that pass the Python
truthiness filter `if ep.number` (a missing number or the number 0 is
dropped), in order, as in lines 71 and 259. -/
def actualEpisodeNumbers (eps : List (Option Nat)) : List Nat :=
  (eps.filterMap id).filter (fun n => n ≠ 0)

/-- `max(..., default=0)`: the maximum of a list of naturals, 0 when
empty (matching line 270 and the `max` over the set at line 77, which is
only reached when the set is non-empty). -/
def listMax (l : List Nat) : Nat := l.foldr max 0

/-- `EpisodeValidationService._get_missing_episodes` (lines 65-85):
the gaps `1..max(existing)` minus the existing numbers; empty when the
season has no episodes or no truthy episode number. -/
def getMissingEpisodes (eps : List (Option Nat)) : List Nat :=
  if eps.isEmpty then []
  else
    let ex := actualEpisodeNumbers eps
    if ex.isEmpty then []
    else
      let maxEp := listMax ex
      ((List.range maxEp).map (fun k => k + 1)).filter (fun n => decide (n ∉ ex))

/-- The missing-episode list computed by `EpisodeValidationService.run`
for one season (lines 258-273): only when `actual_count < expected_count`
does it take `_get_missing_episodes` and extend it with
`range(max_existing + 1, expected_count + 1)` (skipping numbers already
listed); otherwise nothing is reported. -/
def validationMissing (eps : List (Option Nat)) (expected : Nat) : List Nat :=
  let actual := actualEpisodeNumbers eps
  if actual.length < expected then
    let missing := getMissingEpisodes eps
    let maxExisting := listMax actual
    missing ++ (((List.range (expected - maxExisting)).map
        (fun k => k + maxExisting + 1)).filter (fun n => decide (n ∉ missing)))
  else []

/-! ## Scraper fan-in country filter
(src/program/services/scrapers/shared.py lines 177-186 and 263-280) -/

/-- The item fields `_get_item_country` and the country filter read:
the item's `type`, its own `country`, its parent's and grandparent's
`country` (used for seasons and episodes), and `is_anime`. -/
structure CItem where
  type : String
  country : String
  parentCountry : String
  grandCountry : String
  is_anime : Bool
deriving DecidableEq, Repr

/-- Whether `needle` occurs as a contiguous substring of `hay`: the
semantics of the Python expression `needle in hay` on strings. -/
def isSubstring (needle : List Char) : List Char → Bool
  | [] => needle.isEmpty
  | c :: rest => needle.isPrefixOf (c :: rest) || isSubstring needle rest

/-- `_get_item_country` (shared.py lines 263-280): pick the country of
the item, its parent (season) or its grandparent (episode), uppercase
it, then normalize `USA` to `US` and `GB` to `UK`. -/
def getItemCountry (it : CItem) : String :=
  let country := if it.type = "season" then pyUpper it.parentCountry
    else if it.type = "episode" then pyUpper it.grandCountry
    else pyUpper it.country
  if country = "USA" then "US"
  else if country = "GB" then "UK"
  else country

/-- The country context filter of `_parse_results` (shared.py lines
177-186) for one torrent: `True` when the torrent survives the filter.
`tc` is `torrent.data.country` (empty string for a falsy value); the
filter only fires when the country is truthy and the item is not anime,
and drops the torrent when `torrent.data.country not in
_get_item_country(item)` — a Python substring test. -/
def countryFilterKeeps (it : CItem) (tc : String) : Bool :=
  if !tc.isEmpty && !it.is_anime then
    if !tc.isEmpty && !isSubstring tc.data (getItemCountry it).data then false
    else true
  else true

/-! ## Watchlist2PlexContent
(src/program/services/content/watchlist2plex.py) -/

/-- The `watchlist2plex` content settings read by
`Watchlist2PlexContent`. -/
structure W2PContentSettings where
  enabled : Bool
  url : String
  force : Bool
  limit : Nat
deriving DecidableEq, Repr

/-- `Watchlist2PlexContent.validate` (lines 20-31): returns `False`
unconditionally (lines 22-24); the original settings checks remain only
as comments in the source. -/
def w2pContentValidate (_s : W2PContentSettings) : Bool := false

/-- `Watchlist2PlexContent.run` (lines 72-112): the batches of media
items the generator yields.  Line 76 returns before the request is made,
so the body below it (lines 78-112) is unreachable and the generator
yields nothing, whatever the settings and whatever payload the W2P
endpoint would have returned (`payload` models that response). -/
def w2pContentRun (_s : W2PContentSettings)
    (_payload : Option (List (List W2PRelease))) : List (List W2PRelease) := []

/-! ## Helper lemmas -/

lemma svcAttemptsGo_all_cb (numInit : Nat) :
    ∀ (outs : List AttemptOutcome) (f c : Bool), outs ≠ [] →
    (∀ o ∈ outs, o = AttemptOutcome.circuitBreaker) →
    svcAttemptsGo numInit f c outs =
      ((if numInit = 1 then false else f), true, false) := by
  intro outs
  induction outs with
  | nil => intro f c hne _; exact absurd rfl hne
  | cons o rest ih =>
    intro f c _ hcb
    have ho : o = AttemptOutcome.circuitBreaker := hcb o (by simp)
    subst ho
    cases rest with
    | nil => simp [svcAttemptsGo]
    | cons o2 r2 =>
      rw [svcAttemptsGo]
      rw [ih _ _ (by simp) (fun x hx => hcb x (List.mem_cons_of_mem _ hx))]
      by_cases h1 : numInit = 1 <;> simp [h1]

lemma streamStep_tried_yields (numInit : Nat) (st : DLState) (ih : String)
    (outs : List AttemptOutcome) :
    (streamStep numInit st ih outs).tried = st.tried + 1 ∧
    (streamStep numInit st ih outs).yieldsAt =
      st.yieldsAt ++ (if 3 ≤ st.tried + 1 then [st.tried + 1] else []) := by
  refine ⟨rfl, ?_⟩
  simp only [streamStep]
  split <;> simp

lemma yieldsUpTo_succ (t : Nat) :
    yieldsUpTo (t + 1) = yieldsUpTo t ++ (if 3 ≤ t + 1 then [t + 1] else []) := by
  simp only [yieldsUpTo, List.range_succ, List.map_append, List.filter_append]
  by_cases h : 3 ≤ t + 1 <;> simp [h]

lemma streamLoop_yields_inv (numInit kv : Nat)
    (streams : List (String × List AttemptOutcome)) :
    ∀ st : DLState, st.yieldsAt = yieldsUpTo st.tried →
    (streamLoop numInit kv st streams).yieldsAt =
      yieldsUpTo (streamLoop numInit kv st streams).tried := by
  induction streams with
  | nil => intro st h; simpa [streamLoop]
  | cons p rest ihs =>
    intro st h
    obtain ⟨ih, outs⟩ := p
    rw [streamLoop]
    split
    · exact h
    · apply ihs
      obtain ⟨ht, hy⟩ := streamStep_tried_yields numInit st ih outs
      rw [ht, hy, h, yieldsUpTo_succ]

lemma keepFromBucket_length_le (kv : Nat) :
    ∀ (l keep : List MediaEntry), keep.length < kv →
    (keepFromBucket kv keep l).length ≤ kv := by
  intro l
  induction l with
  | nil => intro keep h; simpa [keepFromBucket] using Nat.le_of_lt h
  | cons e rest ih =>
    intro keep h
    simp only [keepFromBucket]
    split
    · split
      · exact Nat.le_of_lt h
      · exact ih keep h
    · split
      · rename_i h3
        simp only [List.length_append, List.length_singleton] at h3 ⊢
        omega
      · rename_i h3
        apply ih
        simp only [List.length_append, List.length_singleton] at h3 ⊢
        omega

lemma keepFromBucket_mem (kv : Nat) :
    ∀ (l keep : List MediaEntry) (x : MediaEntry),
    x ∈ keepFromBucket kv keep l → x ∈ keep ∨ x ∈ l := by
  intro l
  induction l with
  | nil => intro keep x hx; simp only [keepFromBucket] at hx; exact Or.inl hx
  | cons e rest ih =>
    intro keep x hx
    simp only [keepFromBucket] at hx
    split at hx
    · split at hx
      · exact Or.inl hx
      · rcases ih keep x hx with h | h
        · exact Or.inl h
        · exact Or.inr (List.mem_cons_of_mem _ h)
    · split at hx
      · rcases List.mem_append.mp hx with h | h
        · exact Or.inl h
        · simp at h; subst h; exact Or.inr (List.mem_cons_self _ _)
      · rcases ih _ x hx with h | h
        · rcases List.mem_append.mp h with h2 | h2
          · exact Or.inl h2
          · simp at h2; subst h2; exact Or.inr (List.mem_cons_self _ _)
        · exact Or.inr (List.mem_cons_of_mem _ h)

lemma keepFromBucket_nodup (kv : Nat) :
    ∀ (l keep : List MediaEntry), keep.Nodup →
    (keepFromBucket kv keep l).Nodup := by
  intro l
  induction l with
  | nil => intro keep h; simpa [keepFromBucket] using h
  | cons e rest ih =>
    intro keep h
    simp only [keepFromBucket]
    split
    · split
      · exact h
      · exact ih keep h
    · rename_i hnm
      have h2 : (keep ++ [e]).Nodup := by
        simp [List.nodup_append, h, hnm]
      split
      · exact h2
      · exact ih _ h2

lemma bucketOf_subset (g : List MediaEntry) (ih : String) :
    ∀ x ∈ bucketOf g ih, x ∈ g := by
  intro x hx
  exact (List.mem_filter.mp hx).1

lemma retentionPhase1_length_le (kv : Nat) (g : List MediaEntry) :
    ∀ (hs : List String) (keep : List MediaEntry), keep.length < kv →
    (retentionPhase1 kv g keep hs).length ≤ kv := by
  intro hs
  induction hs with
  | nil => intro keep h; simpa [retentionPhase1] using Nat.le_of_lt h
  | cons ihh rest ihr =>
    intro keep h
    simp only [retentionPhase1]
    split
    · split
      · exact keepFromBucket_length_le kv _ keep h
      · rename_i h3
        exact ihr _ (Nat.lt_of_not_le h3)
    · split
      · exact Nat.le_of_lt h
      · exact ihr keep h

lemma retentionPhase1_mem (kv : Nat) (g : List MediaEntry) :
    ∀ (hs : List String) (keep : List MediaEntry) (x : MediaEntry),
    x ∈ retentionPhase1 kv g keep hs → x ∈ keep ∨ x ∈ g := by
  intro hs
  induction hs with
  | nil => intro keep x hx; simp only [retentionPhase1] at hx; exact Or.inl hx
  | cons ihh rest ihr =>
    intro keep x hx
    simp only [retentionPhase1] at hx
    split at hx
    · split at hx
      · rcases keepFromBucket_mem kv _ keep x hx with h | h
        · exact Or.inl h
        · exact Or.inr (bucketOf_subset g ihh x h)
      · rcases ihr _ x hx with h | h
        · rcases keepFromBucket_mem kv _ keep x h with h2 | h2
          · exact Or.inl h2
          · exact Or.inr (bucketOf_subset g ihh x h2)
        · exact Or.inr h
    · split at hx
      · exact Or.inl hx
      · exact ihr keep x hx

lemma retentionPhase1_nodup (kv : Nat) (g : List MediaEntry) :
    ∀ (hs : List String) (keep : List MediaEntry), keep.Nodup →
    (retentionPhase1 kv g keep hs).Nodup := by
  intro hs
  induction hs with
  | nil => intro keep h; simpa [retentionPhase1] using h
  | cons ihh rest ihr =>
    intro keep h
    simp only [retentionPhase1]
    split
    · split
      · exact keepFromBucket_nodup kv _ keep h
      · exact ihr _ (keepFromBucket_nodup kv _ keep h)
    · split
      · exact h
      · exact ihr keep h

lemma retentionPhase2_length_le (kv : Nat) (g : List MediaEntry)
    (ordered : List String) :
    ∀ (hs : List String) (keep : List MediaEntry), keep.length < kv →
    (retentionPhase2 kv g ordered keep hs).length ≤ kv := by
  intro hs
  induction hs with
  | nil => intro keep h; simpa [retentionPhase2] using Nat.le_of_lt h
  | cons ihh rest ihr =>
    intro keep h
    simp only [retentionPhase2]
    split
    · split
      · exact Nat.le_of_lt h
      · exact ihr keep h
    · split
      · exact keepFromBucket_length_le kv _ keep h
      · rename_i h3
        exact ihr _ (Nat.lt_of_not_le h3)

lemma retentionPhase2_mem (kv : Nat) (g : List MediaEntry)
    (ordered : List String) :
    ∀ (hs : List String) (keep : List MediaEntry) (x : MediaEntry),
    x ∈ retentionPhase2 kv g ordered keep hs → x ∈ keep ∨ x ∈ g := by
  intro hs
  induction hs with
  | nil => intro keep x hx; simp only [retentionPhase2] at hx; exact Or.inl hx
  | cons ihh rest ihr =>
    intro keep x hx
    simp only [retentionPhase2] at hx
    split at hx
    · split at hx
      · exact Or.inl hx
      · exact ihr keep x hx
    · split at hx
      · rcases keepFromBucket_mem kv _ keep x hx with h | h
        · exact Or.inl h
        · exact Or.inr (bucketOf_subset g ihh x h)
      · rcases ihr _ x hx with h | h
        · rcases keepFromBucket_mem kv _ keep x h with h2 | h2
          · exact Or.inl h2
          · exact Or.inr (bucketOf_subset g ihh x h2)
        · exact Or.inr h

lemma retentionPhase2_nodup (kv : Nat) (g : List MediaEntry)
    (ordered : List String) :
    ∀ (hs : List String) (keep : List MediaEntry), keep.Nodup →
    (retentionPhase2 kv g ordered keep hs).Nodup := by
  intro hs
  induction hs with
  | nil => intro keep h; simpa [retentionPhase2] using h
  | cons ihh rest ihr =>
    intro keep h
    simp only [retentionPhase2]
    split
    · split
      · exact h
      · exact ihr keep h
    · split
      · exact keepFromBucket_nodup kv _ keep h
      · exact ihr _ (keepFromBucket_nodup kv _ keep h)

lemma profileKeep_length_le (kv : Nat) (ordered : List String)
    (g : List MediaEntry) (hkv : 0 < kv) :
    (profileKeep kv ordered g).length ≤ kv := by
  simp only [profileKeep]
  split
  · rename_i h1
    exact retentionPhase2_length_le kv g ordered _ _ h1
  · exact retentionPhase1_length_le kv g ordered [] hkv

lemma profileKeep_mem (kv : Nat) (ordered : List String) (g : List MediaEntry)
    (x : MediaEntry) (hx : x ∈ profileKeep kv ordered g) : x ∈ g := by
  simp only [profileKeep] at hx
  split at hx
  · rcases retentionPhase2_mem kv g ordered _ _ x hx with h | h
    · rcases retentionPhase1_mem kv g ordered [] x h with h2 | h2
      · simp at h2
      · exact h2
    · exact h
  · rcases retentionPhase1_mem kv g ordered [] x hx with h | h
    · simp at h
    · exact h

lemma profileKeep_nodup (kv : Nat) (ordered : List String)
    (g : List MediaEntry) : (profileKeep kv ordered g).Nodup := by
  simp only [profileKeep]
  split
  · exact retentionPhase2_nodup kv g ordered _ _
      (retentionPhase1_nodup kv g ordered [] List.nodup_nil)
  · exact retentionPhase1_nodup kv g ordered [] List.nodup_nil

lemma firstOccurAux_mem {α : Type} [DecidableEq α] :
    ∀ (l seen : List α) (x : α), x ∈ firstOccurAux seen l → x ∈ l ∧ x ∉ seen := by
  intro l
  induction l with
  | nil => intro seen x hx; simp [firstOccurAux] at hx
  | cons a rest ih =>
    intro seen x hx
    simp only [firstOccurAux] at hx
    split at hx
    · have := ih seen x hx
      exact ⟨List.mem_cons_of_mem _ this.1, this.2⟩
    · rename_i ha
      rcases List.mem_cons.mp hx with h | h
      · subst h; exact ⟨List.mem_cons_self _ _, ha⟩
      · have := ih _ x h
        refine ⟨List.mem_cons_of_mem _ this.1, fun hs => this.2 ?_⟩
        exact List.mem_append.mpr (Or.inl hs)

lemma firstOccurAux_nodup {α : Type} [DecidableEq α] :
    ∀ (l seen : List α), (firstOccurAux seen l).Nodup := by
  intro l
  induction l with
  | nil => intro seen; simp [firstOccurAux]
  | cons a rest ih =>
    intro seen
    simp only [firstOccurAux]
    split
    · exact ih seen
    · refine List.nodup_cons.mpr ⟨fun hmem => ?_, ih _⟩
      have := (firstOccurAux_mem rest (seen ++ [a]) a hmem).2
      simp at this

lemma groupsKeep_mem (kv : Nat) (ordered : List String)
    (entries : List MediaEntry) :
    ∀ (ps : List (Option String)) (x : MediaEntry),
    x ∈ groupsKeep kv ordered entries ps →
    x ∈ entries ∧ x.profile_name ∈ ps := by
  intro ps
  induction ps with
  | nil => intro x hx; simp [groupsKeep] at hx
  | cons p rest ih =>
    intro x hx
    simp only [groupsKeep] at hx
    rcases List.mem_append.mp hx with h | h
    · have h2 := profileKeep_mem kv ordered _ x h
      have h3 := List.mem_filter.mp h2
      have h4 : x.profile_name = p := by
        have := h3.2
        simpa using this
      exact ⟨h3.1, by rw [h4]; exact List.mem_cons_self _ _⟩
    · have := ih x h
      exact ⟨this.1, List.mem_cons_of_mem _ this.2⟩

lemma groupsKeep_nodup (kv : Nat) (ordered : List String)
    (entries : List MediaEntry) :
    ∀ (ps : List (Option String)), ps.Nodup →
    (groupsKeep kv ordered entries ps).Nodup := by
  intro ps
  induction ps with
  | nil => intro _; simp [groupsKeep]
  | cons p rest ih =>
    intro hnd
    have hp : p ∉ rest := (List.nodup_cons.mp hnd).1
    simp only [groupsKeep]
    rw [List.nodup_append]
    refine ⟨profileKeep_nodup kv ordered _, ih (List.nodup_cons.mp hnd).2, ?_⟩
    intro x hx hy
    have h1 := profileKeep_mem kv ordered _ x hx
    have h2 : x.profile_name = p := by
      have := (List.mem_filter.mp h1).2
      simpa using this
    have h3 := (groupsKeep_mem kv ordered entries rest x hy).2
    rw [h2] at h3
    exact hp h3

lemma groupsKeep_countP (kv : Nat) (ordered : List String)
    (entries : List MediaEntry) (p : Option String) (hkv : 0 < kv) :
    ∀ (ps : List (Option String)), ps.Nodup →
    (groupsKeep kv ordered entries ps).countP
      (fun e => e.profile_name == p) ≤ kv := by
  intro ps
  induction ps with
  | nil => intro _; simp [groupsKeep]
  | cons q rest ih =>
    intro hnd
    simp only [groupsKeep, List.countP_append]
    by_cases hqp : q = p
    · subst hqp
      have hzero : (groupsKeep kv ordered entries rest).countP
          (fun e => e.profile_name == q) = 0 := by
        rw [List.countP_eq_zero]
        intro x hx
        have h3 := (groupsKeep_mem kv ordered entries rest x hx).2
        have hq : q ∉ rest := (List.nodup_cons.mp hnd).1
        simp only [beq_iff_eq]
        intro hc
        rw [hc] at h3
        exact hq h3
      rw [hzero]
      have := Nat.le_trans
        (List.countP_le_length (p := fun e => e.profile_name == q))
        (profileKeep_length_le kv ordered
          (entries.filter (fun e => e.profile_name == q)) hkv)
      omega
    · have hzero : (profileKeep kv ordered
          (entries.filter (fun e => e.profile_name == q))).countP
          (fun e => e.profile_name == p) = 0 := by
        rw [List.countP_eq_zero]
        intro x hx
        have h1 := profileKeep_mem kv ordered _ x hx
        have h2 : x.profile_name = q := by
          have := (List.mem_filter.mp h1).2
          simpa using this
        simp only [beq_iff_eq, h2]
        exact hqp
      rw [hzero]
      have := ih (List.nodup_cons.mp hnd).2
      omega

lemma enforceVersionRetention_mem (entries : List MediaEntry) (kv : Nat)
    (d : Option (List String)) (s : List String) (x : MediaEntry)
    (hx : x ∈ enforceVersionRetention entries kv d s) : x ∈ entries := by
  simp only [enforceVersionRetention] at hx
  split at hx
  · exact hx
  · exact (groupsKeep_mem _ _ entries _ x hx).1

lemma enforceVersionRetention_nodup (entries : List MediaEntry) (kv : Nat)
    (d : Option (List String)) (s : List String) :
    (enforceVersionRetention entries kv d s).Nodup := by
  simp only [enforceVersionRetention]
  split
  · rename_i h
    simp [List.isEmpty_iff.mp h]
  · exact groupsKeep_nodup _ _ entries _ (firstOccurAux_nodup _ [])

lemma entryKey_inj_of_nodup (l : List MediaEntry) (h : KeysNodup l) :
    ∀ a ∈ l, ∀ b ∈ l, entryKey a = entryKey b → a = b := by
  exact List.inj_on_of_nodup_map h

lemma enforce_keys_nodup (entries : List MediaEntry) (kv : Nat)
    (d : Option (List String)) (s : List String) (h : KeysNodup entries) :
    KeysNodup (enforceVersionRetention entries kv d s) := by
  have hnd := enforceVersionRetention_nodup entries kv d s
  refine List.Nodup.map_on ?_ hnd
  intro a ha b hb hab
  exact entryKey_inj_of_nodup entries h a
    (enforceVersionRetention_mem entries kv d s a ha) b
    (enforceVersionRetention_mem entries kv d s b hb) hab

lemma upsert_keys_mem (newE : MediaEntry) :
    ∀ (l : List MediaEntry) (x : String × Option String),
    x ∈ (upsertEntry newE l).map entryKey →
    x ∈ l.map entryKey ∨ x = entryKey newE := by
  intro l
  induction l with
  | nil =>
    intro x hx
    simp only [upsertEntry, List.map_cons, List.map_nil] at hx
    simp at hx
    exact Or.inr hx
  | cons e rest ih =>
    intro x hx
    simp only [upsertEntry] at hx
    split at hx
    · simp only [List.map_cons] at hx
      rcases List.mem_cons.mp hx with h | h
      · exact Or.inr h
      · exact Or.inl (List.mem_cons_of_mem _ h)
    · simp only [List.map_cons] at hx
      rcases List.mem_cons.mp hx with h | h
      · exact Or.inl (by simp [h])
      · rcases ih x h with h2 | h2
        · exact Or.inl (List.mem_cons_of_mem _ h2)
        · exact Or.inr h2

lemma upsert_keys_nodup (newE : MediaEntry)
    (hlow : pyLower newE.infohash = newE.infohash) :
    ∀ (l : List MediaEntry), KeysNodup l → KeysNodup (upsertEntry newE l) := by
  intro l
  induction l with
  | nil => intro _; simp [KeysNodup, upsertEntry]
  | cons e rest ih =>
    intro h
    have hh := (List.nodup_cons.mp h)
    simp only [upsertEntry]
    split
    · rename_i hm
      simp only [KeysNodup, List.map_cons]
      refine List.nodup_cons.mpr ⟨?_, hh.2⟩
      have hkey : entryKey { newE with entryId := e.entryId } = entryKey e := by
        simp only [entryKey, hlow, hm.1, hm.2]
      rw [hkey]
      exact hh.1
    · rename_i hm
      simp only [KeysNodup, List.map_cons]
      refine List.nodup_cons.mpr ⟨?_, ih hh.2⟩
      intro hmem
      rcases upsert_keys_mem newE rest _ hmem with h2 | h2
      · exact hh.1 h2
      · apply hm
        have : pyLower e.infohash = pyLower newE.infohash ∧
            e.profile_name = newE.profile_name := by
          have := h2
          simp only [entryKey] at this
          exact ⟨congrArg Prod.fst this, congrArg Prod.snd this⟩
        exact ⟨by rw [this.1, hlow], this.2⟩

lemma upsert_length_of_mem (newE : MediaEntry)
    (hlow : pyLower newE.infohash = newE.infohash) :
    ∀ (l : List MediaEntry), entryKey newE ∈ l.map entryKey →
    (upsertEntry newE l).length = l.length := by
  intro l
  induction l with
  | nil => intro hx; simp at hx
  | cons e rest ih =>
    intro hx
    simp only [upsertEntry]
    split
    · simp
    · rename_i hm
      rcases List.mem_cons.mp hx with h | h
      · exfalso
        apply hm
        simp only [entryKey] at h
        have h1 : pyLower newE.infohash = pyLower e.infohash := congrArg Prod.fst h
        have h2 : newE.profile_name = e.profile_name := congrArg Prod.snd h
        exact ⟨by rw [← h1, hlow], h2.symm⟩
      · simp only [List.length_cons, ih h]

lemma dictInsert_mem_inv (k0 v0 : String) (d : List (String × String))
    (k v : String) (h : (k, v) ∈ dictInsert k0 v0 d) :
    (k, v) ∈ d ∨ (k = k0 ∧ v = v0) := by
  simp only [dictInsert] at h
  split at h
  · rcases List.mem_map.mp h with ⟨q, hq, hqe⟩
    by_cases hk : q.1 == k0
    · rw [if_pos hk] at hqe
      right
      have h1 := congrArg Prod.fst hqe
      have h2 := congrArg Prod.snd hqe
      exact ⟨h1.symm, h2.symm⟩
    · rw [if_neg hk] at hqe
      left
      rw [← hqe]
      exact hq
  · rcases List.mem_append.mp h with h2 | h2
    · exact Or.inl h2
    · right
      simp at h2
      exact h2

lemma w2pScraperRun_fold_mem (k v : String) :
    ∀ (rels : List W2PRelease) (acc : List (String × String)),
    (k, v) ∈ rels.foldl
      (fun acc rel =>
        match relEffectiveInfohash rel with
        | none => acc
        | some ih => dictInsert (pyLower ih) (w2pCleanTitle (relRawTitle rel)) acc)
      acc →
    (k, v) ∈ acc ∨ ∃ rel ∈ rels, ∃ ih,
      relEffectiveInfohash rel = some ih ∧ k = pyLower ih := by
  intro rels
  induction rels with
  | nil => intro acc h; exact Or.inl h
  | cons rel rest ih =>
    intro acc h
    rw [List.foldl_cons] at h
    rcases ih _ h with h2 | h2
    · rcases heff : relEffectiveInfohash rel with _ | ihash
      · rw [heff] at h2
        exact Or.inl h2
      · rw [heff] at h2
        rcases dictInsert_mem_inv _ _ acc k v h2 with h3 | h3
        · exact Or.inl h3
        · exact Or.inr ⟨rel, List.mem_cons_self _ _, ihash, heff, h3.1⟩
    · rcases h2 with ⟨r, hr, ihash, heff, hk⟩
      exact Or.inr ⟨r, List.mem_cons_of_mem _ hr, ihash, heff, hk⟩

lemma searchBtih_spec :
    ∀ (l r : List Char), searchBtih l = some r →
    32 ≤ r.length ∧ r.length ≤ 40 ∧ ∀ c ∈ r, isHexChar c = true := by
  intro l
  induction l with
  | nil => intro r h; simp [searchBtih] at h
  | cons c rest ih =>
    intro r h
    simp only [searchBtih] at h
    split at h
    · split at h
      · rename_i hlen
        have hr : r = (((c :: rest).drop 5).takeWhile isHexChar).take 40 :=
          (Option.some.injEq _ _ ▸ h).symm
        subst hr
        refine ⟨?_, ?_, ?_⟩
        · rw [List.length_take]
          omega
        · rw [List.length_take]
          omega
        · intro x hx
          have hx2 := List.mem_of_mem_take hx
          exact List.mem_takeWhile_imp hx2
      · exact ih r h
    · exact ih r h

lemma getMissingEpisodes_le (eps : List (Option Nat)) :
    ∀ n ∈ getMissingEpisodes eps, n ≤ listMax (actualEpisodeNumbers eps) := by
  intro n hn
  simp only [getMissingEpisodes] at hn
  split at hn
  · simp at hn
  · split at hn
    · simp at hn
    · have h1 := (List.mem_filter.mp hn).1
      rcases List.mem_map.mp h1 with ⟨k, hk, hkn⟩
      have := List.mem_range.mp hk
      omega

lemma getMissingEpisodes_toFinset (eps : List (Option Nat)) :
    (getMissingEpisodes eps).toFinset =
      Finset.Icc 1 (listMax (actualEpisodeNumbers eps)) \
        (actualEpisodeNumbers eps).toFinset := by
  simp only [getMissingEpisodes]
  split
  · rename_i h
    have he : eps = [] := List.isEmpty_iff.mp h
    subst he
    simp [actualEpisodeNumbers, listMax]
  · split
    · rename_i h2
      have he : actualEpisodeNumbers eps = [] := List.isEmpty_iff.mp h2
      rw [he]
      simp [listMax]
    · ext n
      simp only [List.mem_toFinset, List.mem_filter, List.mem_map,
        List.mem_range, Finset.mem_sdiff, Finset.mem_Icc, decide_eq_true_eq]
      constructor
      · rintro ⟨⟨k, hk, rfl⟩, hnot⟩
        exact ⟨⟨by omega, by omega⟩, hnot⟩
      · rintro ⟨⟨h1, h2⟩, hnot⟩
        exact ⟨⟨n - 1, by omega, by omega⟩, hnot⟩

lemma isPrefixOf_self_char (l : List Char) : l.isPrefixOf l = true := by
  induction l with
  | nil => rfl
  | cons c rest ih => simp [List.isPrefixOf, ih]

lemma isSubstring_self (l : List Char) : isSubstring l l = true := by
  cases l with
  | nil => rfl
  | cons c rest => simp [isSubstring, isPrefixOf_self_char]

/-! ## Claim theorems -/

/-- Claim C1 (amended): in the per-stream loop of `Downloader.run`, a
Stream whose every provider attempt raised `CircuitBreakerOpen` is not
blacklisted when exactly one provider is initialized; but with two
initialized providers the same all-circuit-breaker Stream IS
blacklisted (lines 342-346 clear `stream_failed_on_all_services` only
when `len(self.initialized_services) == 1`). -/
theorem downloader_cb_single_provider_only (st : DLState) (ih : String)
    (outs : List AttemptOutcome) (hne : outs ≠ [])
    (hcb : ∀ o ∈ outs, o = AttemptOutcome.circuitBreaker) :
    (streamStep 1 st ih outs).blacklisted = st.blacklisted ∧
    (streamStep 2 st ih outs).blacklisted = st.blacklisted ++ [ih] := by
  have h1 := svcAttemptsGo_all_cb 1 outs true false hne hcb
  have h2 := svcAttemptsGo_all_cb 2 outs true false hne hcb
  constructor
  · simp [streamStep, h1]
  · simp [streamStep, h2]

/-- Witness for C1 at a concrete input: one provider, one
circuit-breaker attempt, no blacklist. -/
theorem downloader_cb_single_provider_only_witness :
    (streamStep 1 (mkDLState [] []) "aaaa"
      [AttemptOutcome.circuitBreaker]).blacklisted =
      (mkDLState [] []).blacklisted ∧
    (streamStep 2 (mkDLState [] []) "aaaa"
      [AttemptOutcome.circuitBreaker]).blacklisted =
      (mkDLState [] []).blacklisted ++ ["aaaa"] :=
  downloader_cb_single_provider_only (mkDLState [] []) "aaaa"
    [AttemptOutcome.circuitBreaker] (by simp) (by simp)

/-- Counterexample to C1 as stated: with two initialized providers, a
stream whose both attempts raised `CircuitBreakerOpen` (no genuine
per-stream error anywhere) ends up blacklisted, so `blacklist_stream`
is not avoided "regardless of how many providers are initialized". -/
theorem downloader_cb_two_providers_blacklists :
    (streamLoop 2 1 (mkDLState [] [])
      [("aaaa", [AttemptOutcome.circuitBreaker,
        AttemptOutcome.circuitBreaker])]).blacklisted = ["aaaa"] := by decide

/-- Claim C2 (amended): after `_enforce_version_retention` runs with cap
`kv`, every profile holds at most `max kv 1` filesystem entries.  In
`Downloader.run` the cap passed is `max(keep_versions or 1,
len(item.streams) or 1)` (line 99) — the single default-profile value
inflated by the stream count — not the configured per-profile
`keep_versions(p)`. -/
theorem retention_per_profile_cap (entries : List MediaEntry) (kv : Nat)
    (d : Option (List String)) (s : List String) (p : Option String) :
    (enforceVersionRetention entries kv d s).countP
      (fun e => e.profile_name == p) ≤ max kv 1 := by
  simp only [enforceVersionRetention]
  split
  · rename_i h
    simp [List.isEmpty_iff.mp h]
  · have hkv : 0 < (if kv = 0 then 1 else kv) := by split <;> omega
    have hmax : (if kv = 0 then 1 else kv) = max kv 1 := by split <;> omega
    rw [← hmax]
    exact groupsKeep_countP _ _ entries p hkv _ (firstOccurAux_nodup _ [])

/-- Counterexample to C2 as stated: with the configured cap
`keep_versions(hq) = 1` but two item streams, a run pass in which both
desired infohashes already have `hq` entries keeps BOTH entries
(`keep_versions` is inflated to 2 at line 99), violating the
per-profile bound of 1. -/
theorem retention_configured_cap_violated :
    (downloaderRunNoDownloadPass 1 [("AA", some "hq"), ("BB", some "hq")]
      [⟨1, "aa", some "hq", "f1", "u1", "p", "d1", 10⟩,
       ⟨2, "bb", some "hq", "f2", "u2", "p", "d2", 20⟩] []).countP
      (fun e => e.profile_name == some "hq") = 2 ∧ ¬(2 ≤ 1) := by decide

/-- Claim C3 (code bug): when the `try` body of `Downloader.run` raises
before `download_success` is initialized at line 137 (for example in the
settings lookups of lines 86-99 or in the retention call at line 124),
the `except` at line 398 catches and logs, but line 403 then reads the
never-assigned local `download_success`, so the generator raises
`UnboundLocalError` to the scheduler and never yields the item.  A
non-raising body, by contrast, always ends with a yield. -/
theorem downloader_run_unbound_local :
    downloaderRunModel false (some RunFailPoint.atSettings) 0 false false 1 =
      { yields := [], unboundLocalRaised := true } ∧
    downloaderRunModel false (some RunFailPoint.atPrep) 0 false false 1 =
      { yields := [], unboundLocalRaised := true } ∧
    downloaderRunModel false none 0 false false 1 =
      { yields := [DownloaderYield.yItem], unboundLocalRaised := false } := by
  decide

/-- Claim C4 (code bug): `Watchlist2PlexScraper.run` collapses all
whitespace (including newlines) to single spaces BEFORE the
`split('\n')[0]` step, so the first-line restriction is dead code and
the spec's example title keeps its later lines joined by spaces instead
of normalizing to the first line only. -/
theorem w2p_title_normalization_eval :
    w2pCleanTitle "🔥 Movie Name 2023 1080p WEB-DL\nComment line\nanother" =
      "Movie Name 2023 1080p WEB-DL Comment line another" ∧
    w2pCleanTitle "🔥 Movie Name 2023 1080p WEB-DL\nComment line\nanother" ≠
      "Movie Name 2023 1080p WEB-DL" := by decide

/-- Claim C5 (amended): in the per-stream loop of `Downloader.run`, the
item is yielded after every attempted stream from the third one on
(`tried_streams` is never reset, and line 381 checks
`tried_streams >= 3`), i.e. the yields happen exactly at the attempt
counts `3, 4, ..., tried`, not only at multiples of 3. -/
theorem downloader_yield_cadence (numInit kv : Nat)
    (existing blacklisted : List String)
    (streams : List (String × List AttemptOutcome)) :
    (streamLoop numInit kv (mkDLState existing blacklisted) streams).yieldsAt =
      yieldsUpTo
        (streamLoop numInit kv (mkDLState existing blacklisted) streams).tried :=
  streamLoop_yields_inv numInit kv streams _ rfl

/-- Counterexample to C5 as stated: after four attempted streams the
loop has yielded at counts 3 and 4, and 4 is not a multiple of 3. -/
theorem downloader_yield_not_multiple_of_three :
    (streamLoop 1 1 (mkDLState [] [])
      [("h1", [AttemptOutcome.notAvailable]),
       ("h2", [AttemptOutcome.notAvailable]),
       ("h3", [AttemptOutcome.notAvailable]),
       ("h4", [AttemptOutcome.notAvailable])]).yieldsAt = [3, 4] ∧
    ¬(4 % 3 = 0) := by decide

/-- Claim C6 (amended): every key the harvested-releases pseudo-scraper
emits is the lowercased effective infohash of some input release
(releases with no truthy infohash and no extractable magnet hash are
dropped), and a magnet extraction yields between 32 and 40 hex digits —
but no exact-40 validation exists: a release `infohash` field is
lowercased and used as-is. -/
theorem w2p_infohash_key_provenance :
    (∀ (rels : List W2PRelease) (k v : String), (k, v) ∈ w2pScraperRun rels →
      ∃ rel ∈ rels, ∃ ih, relEffectiveInfohash rel = some ih ∧
        k = pyLower ih) ∧
    (∀ (m h : String), extractInfohash (some m) = some h →
      32 ≤ h.length ∧ h.length ≤ 40 ∧ ∀ c ∈ h.data, isHexChar c = true) := by
  constructor
  · intro rels k v hkv
    simp only [w2pScraperRun] at hkv
    rcases w2pScraperRun_fold_mem k v rels [] hkv with h | h
    · simp at h
    · exact h
  · intro m h hx
    simp only [extractInfohash] at hx
    split at hx
    · simp at hx
    · rcases Option.map_eq_some'.mp hx with ⟨l, hl, hlh⟩
      subst hlh
      have hs := searchBtih_spec m.data l hl
      refine ⟨hs.1, hs.2.1, fun c hc => hs.2.2 c hc⟩

/-- Witness for C6 at concrete inputs: an infohash-field release and a
magnet-only release. -/
theorem w2p_infohash_key_provenance_witness :
    (∃ rel ∈ [(⟨some "ABCD", none, some "T", none⟩ : W2PRelease)], ∃ ih,
      relEffectiveInfohash rel = some ih ∧ "abcd" = pyLower ih) ∧
    (32 ≤ ("0123456789abcdef0123456789abcdef" : String).length ∧
      ("0123456789abcdef0123456789abcdef" : String).length ≤ 40 ∧
      ∀ c ∈ ("0123456789abcdef0123456789abcdef" : String).data,
        isHexChar c = true) :=
  ⟨w2p_infohash_key_provenance.1 [⟨some "ABCD", none, some "T", none⟩]
      "abcd" "T" (by decide),
   w2p_infohash_key_provenance.2
      "magnet:?xt=urn:btih:0123456789abcdef0123456789abcdef&dn=x"
      "0123456789abcdef0123456789abcdef" (by decide)⟩

/-- Counterexample to C6 as stated: a release whose `infohash` field is
the non-hex, 4-character string `ZZZZ` is NOT rejected at ingress: its
lowercasing becomes a key, contradicting "lower-case hex of length
exactly 40" and "invalid values are dropped". -/
theorem w2p_invalid_infohash_not_rejected :
    w2pScraperRun [⟨some "ZZZZ", none, some "Some Title", none⟩] =
      [("zzzz", "Some Title")] ∧
    ("zzzz" : String).length ≠ 40 ∧
    ¬(∀ c ∈ ("zzzz" : String).data, isHexChar c = true) := by decide

/-- Claim C7: the `(lowered infohash, profile_name)` key uniqueness of
`filesystem_entries` is an invariant: the `_update_attributes` dedup
updates a matching entry in place (same list length) instead of
appending, and `_enforce_version_retention` preserves key uniqueness.
`hlow` records that new entries are created with an already-lowercased
infohash (line 921). -/
theorem entry_key_uniqueness_preserved (entries : List MediaEntry)
    (newE : MediaEntry) (kv : Nat) (d : Option (List String))
    (s : List String) (h : KeysNodup entries)
    (hlow : pyLower newE.infohash = newE.infohash) :
    KeysNodup (upsertEntry newE entries) ∧
    (entryKey newE ∈ entries.map entryKey →
      (upsertEntry newE entries).length = entries.length) ∧
    KeysNodup (enforceVersionRetention entries kv d s) :=
  ⟨upsert_keys_nodup newE hlow entries h,
   fun hm => upsert_length_of_mem newE hlow entries hm,
   enforce_keys_nodup entries kv d s h⟩

/-- Witness for C7 at a concrete input: re-downloading the same
`(infohash, profile)` replaces in place and keeps keys unique. -/
theorem entry_key_uniqueness_preserved_witness :
    KeysNodup (upsertEntry ⟨7, "aaaa", some "hq", "f2", "u2", "p2", "d2", 2⟩
      [⟨1, "aaaa", some "hq", "f1", "u1", "p1", "d1", 1⟩]) ∧
    (entryKey (⟨7, "aaaa", some "hq", "f2", "u2", "p2", "d2", 2⟩ : MediaEntry) ∈
        [(⟨1, "aaaa", some "hq", "f1", "u1", "p1", "d1", 1⟩ : MediaEntry)].map
          entryKey →
      (upsertEntry ⟨7, "aaaa", some "hq", "f2", "u2", "p2", "d2", 2⟩
        [⟨1, "aaaa", some "hq", "f1", "u1", "p1", "d1", 1⟩]).length =
      [(⟨1, "aaaa", some "hq", "f1", "u1", "p1", "d1", 1⟩ : MediaEntry)].length) ∧
    KeysNodup (enforceVersionRetention
      [⟨1, "aaaa", some "hq", "f1", "u1", "p1", "d1", 1⟩] 1 none []) :=
  entry_key_uniqueness_preserved
    [⟨1, "aaaa", some "hq", "f1", "u1", "p1", "d1", 1⟩]
    ⟨7, "aaaa", some "hq", "f2", "u2", "p2", "d2", 2⟩ 1 none []
    (by unfold KeysNodup; decide) (by decide)

/-- Claim C8 (amended): when the Episode Validator's guard
`actual_count < expected_count` holds, the reported-and-queued episode
set matches the spec formula; the guard itself is the amendment — a
season whose episode count reaches `expected` is never examined for
gaps. -/
theorem episode_validation_missing_formula (eps : List (Option Nat))
    (expected : Nat)
    (h : (actualEpisodeNumbers eps).length < expected) :
    (validationMissing eps expected).toFinset =
      (Finset.Icc 1 (listMax (actualEpisodeNumbers eps)) \
        (actualEpisodeNumbers eps).toFinset) ∪
      Finset.Icc (listMax (actualEpisodeNumbers eps) + 1) expected := by
  simp only [validationMissing]
  rw [if_pos h]
  rw [List.toFinset_append, getMissingEpisodes_toFinset]
  congr 1
  ext n
  simp only [List.mem_toFinset, List.mem_filter, List.mem_map,
    List.mem_range, Finset.mem_Icc, decide_eq_true_eq]
  constructor
  · rintro ⟨⟨k, hk, rfl⟩, _⟩
    omega
  · rintro ⟨h1, h2⟩
    refine ⟨⟨n - listMax (actualEpisodeNumbers eps) - 1, by omega, by omega⟩, ?_⟩
    intro hmem
    have := getMissingEpisodes_le eps n hmem
    omega

/-- Witness for C8 at a concrete input: episodes 1, 2, 5 with 7
expected report the set of the formula. -/
theorem episode_validation_missing_formula_witness :
    (actualEpisodeNumbers [some 1, some 2, some 5]).length < 7 ∧
    (validationMissing [some 1, some 2, some 5] 7).toFinset =
      (Finset.Icc 1 (listMax (actualEpisodeNumbers [some 1, some 2, some 5])) \
        (actualEpisodeNumbers [some 1, some 2, some 5]).toFinset) ∪
      Finset.Icc (listMax (actualEpisodeNumbers [some 1, some 2, some 5]) + 1)
        7 :=
  ⟨by decide, episode_validation_missing_formula [some 1, some 2, some 5] 7
    (by decide)⟩

/-- Counterexample to C8 as stated: a season with episodes 1 and 3 and
expected count 2 has the non-empty formula set, namely 2 is missing, yet
the validator reports nothing because `actual_count < expected_count`
fails (2 < 2 is false). -/
theorem episode_validation_gap_not_reported :
    validationMissing [some 1, some 3] 2 = [] ∧
    ((Finset.Icc 1 (listMax (actualEpisodeNumbers [some 1, some 3])) \
        (actualEpisodeNumbers [some 1, some 3]).toFinset) ∪
      Finset.Icc (listMax (actualEpisodeNumbers [some 1, some 3]) + 1) 2) =
      {2} ∧
    ({2} : Finset ℕ) ≠ ∅ := by decide

/-- Claim C9 (amended): for a non-anime item and a torrent annotating a
country, the torrent survives the country filter iff its country is a
contiguous substring of the normalized item country (the source uses
the Python substring test `not in`); equality is sufficient, so item
`USA` with torrent `US` is accepted — but so is any proper substring. -/
theorem country_filter_substring (it : CItem) (tc : String)
    (ha : it.is_anime = false) (hne : tc ≠ "") :
    (tc = getItemCountry it → countryFilterKeeps it tc = true) ∧
    (countryFilterKeeps it tc = true ↔
      isSubstring tc.data (getItemCountry it).data = true) := by
  have hemp : tc.isEmpty = false := by
    rw [Bool.eq_false_iff]
    intro hx
    exact hne ((String.isEmpty_iff tc).mp hx)
  constructor
  · intro heq
    simp only [countryFilterKeeps, hemp, ha]
    subst heq
    simp [isSubstring_self]
  · simp only [countryFilterKeeps, hemp, ha]
    cases hsub : isSubstring tc.data (getItemCountry it).data <;> simp [hsub]

/-- Witness for C9 at the claim's own example: item country `USA`
normalizes to `US` and a torrent country `US` is accepted. -/
theorem country_filter_substring_witness :
    countryFilterKeeps ⟨"movie", "USA", "", "", false⟩ "US" = true :=
  (country_filter_substring ⟨"movie", "USA", "", "", false⟩ "US" rfl
    (by decide)).1 (by decide)

/-- Counterexample to C9 as stated: torrent country `U` differs from
the normalized item country `US`, yet the filter keeps the torrent
because `U` is a substring of `US`. -/
theorem country_filter_nonequal_kept :
    countryFilterKeeps ⟨"movie", "USA", "", "", false⟩ "U" = true ∧
    "U" ≠ getItemCountry ⟨"movie", "USA", "", "", false⟩ := by decide

/-- Claim C10: the Watchlist2PlexContent service is unconditionally
disabled: `validate` returns `False` for every settings configuration
and `run` returns before doing any work, yielding no item batches
whatever the W2P endpoint would have answered. -/
theorem w2p_content_service_disabled :
    (∀ s : W2PContentSettings, w2pContentValidate s = false) ∧
    ∀ (s : W2PContentSettings) (payload : Option (List (List W2PRelease))),
      w2pContentRun s payload = [] :=
  ⟨fun _ => rfl, fun _ _ => rfl⟩
